import Mathlib

/-!
Verification of the `sshutil` SSH client wrapper (`sshutil/sshclient.go`).

The file shallowly embeds the parts of the Go source that the specification
talks about:

* `NewSSHClient` (sshclient.go:25-42): construction of the `ssh.ClientConfig`
  value — user, the single password auth method, the fixed 5 second dial
  timeout, and the hardcoded `ssh.InsecureIgnoreHostKey()` callback.
* `RunCommand` (sshclient.go:50-63) and `CopyFile` (sshclient.go:66-85):
  modelled as resource-event traces that mirror the Go control flow with its
  `defer` statements.
* `CopyDir` (sshclient.go:88-126): the `filepath.Walk` traversal is modelled
  as a task-list generator over an explicit file tree; the remote-path
  derivation (`filepath.Rel` + `filepath.Join`, sshclient.go:95-100) is
  modelled down to the character level, including Go's path `Clean`
  algorithm; the `mkdir -p '<dst>'` command construction (sshclient.go:104)
  is modelled as a string builder whose output is checked against a POSIX
  single-quote shell tokenizer; execution of the produced task list is a
  stop-at-first-error fold over an explicit remote state, matching
  `filepath.Walk`'s abort-on-error contract and the sequential structure of
  the Go code (the goroutine spawned per file at sshclient.go:111-115 is
  immediately joined by `wg.Wait()` at sshclient.go:116, so execution is
  sequential).

Paths are represented both as raw strings (where the Go code manipulates
strings) and as lists of path segments (the relative position of an entry
under the walked root).
-/

/-! ## Shell command construction and single-quote tokenization

`CopyDir` builds the remote directory-create command as
`fmt.Sprintf("mkdir -p '%s'", dstPath)` (sshclient.go:104): the destination
path is spliced between two literal single-quote characters with no escaping
of the path's own characters. -/

/-- The single-quote character (ASCII 39). -/
def squote : Char := Char.ofNat 39

/-- The single-quote character as a one-character string. -/
def squoteStr : String := String.mk [squote]

/-- The remote directory-create command built by `CopyDir`
(sshclient.go:104): `fmt.Sprintf("mkdir -p '%s'", dstPath)`. -/
def mkdirCmd (dstPath : String) : String :=
  "mkdir -p " ++ squoteStr ++ dstPath ++ squoteStr

/-- POSIX-style shell word scanner restricted to the two metacharacters that
occur in the commands `CopyDir` emits: the blank (word separator) and the
single quote (literal quoting).  State: `toks` are the completed words in
reverse, `cur` is the current word's characters in reverse, `started` records
whether a current word exists (so that quoted empty words count), `inQ`
records whether the scanner is inside single quotes.  An unterminated quote
is a shell syntax error, reported as `none`. -/
def shellGo : List String → List Char → Bool → Bool → List Char → Option (List String)
  | toks, cur, started, inQ, [] =>
    if inQ then none
    else if started then some (String.mk cur.reverse :: toks).reverse
    else some toks.reverse
  | toks, cur, started, inQ, c :: cs =>
    if inQ then
      if c = squote then shellGo toks cur started false cs
      else shellGo toks (c :: cur) started true cs
    else if c = squote then shellGo toks cur true true cs
    else if c = ' ' then
      if started then shellGo (String.mk cur.reverse :: toks) [] false false cs
      else shellGo toks [] false false cs
    else shellGo toks (c :: cur) true false cs

/-- Parse a command string into its shell words; `none` on a shell syntax
error (unterminated single quote). -/
def shellParse (s : String) : Option (List String) :=
  shellGo [] [] false false s.data

/-! ## Connection configuration

`NewSSHClient` (sshclient.go:25-42) builds an `ssh.ClientConfig` from the
four parameters `(host, port, user, password)`.  The credential and host-key
option spaces named by the specification are modelled in full so that the
configuration the code actually builds can be compared against them. -/

/-- Credential options recognized by the specification. -/
inductive AuthMethod
  | password (secret : String)
  | publicKey (key : String)
deriving DecidableEq

/-- Host-key verification policies recognized by the specification. -/
inductive HostKeyPolicy
  | insecureIgnore
  | pinned (fingerprint : String)
  | knownHostsFile (path : String)
deriving DecidableEq

/-- The fields of the `ssh.ClientConfig` value that `NewSSHClient`
populates (sshclient.go:26-33).  `timeoutNs` is the dial timeout as a
`time.Duration`, i.e. in nanoseconds. -/
structure ClientConfig where
  user : String
  auth : List AuthMethod
  timeoutNs : Nat
  hostKey : HostKeyPolicy
deriving DecidableEq

/-- The `ssh.ClientConfig` built by `NewSSHClient host port user password`
(sshclient.go:26-33): password auth only, `Timeout: 5 * time.Second`, and
`HostKeyCallback: ssh.InsecureIgnoreHostKey()`.  The `host` and `port`
parameters flow only into the dial address (sshclient.go:36), not into the
configuration. -/
def newSSHClientConfig (_host : String) (_port : Nat)
    (user : String) (password : String) : ClientConfig :=
  { user := user
    auth := [AuthMethod.password password]
    timeoutNs := 5 * 1000000000
    hostKey := HostKeyPolicy.insecureIgnore }

/-! ## Remote path derivation

For every visited entry, `CopyDir` computes
`relPath := filepath.Rel(localPath, path)` and
`dstPath := filepath.Join(remotePath, relPath)` (sshclient.go:95-100).  Go's
`filepath.Join` concatenates its non-empty arguments with `/` and applies
`filepath.Clean`; on Unix, `Clean` splits on `/`, drops empty and
single-dot elements, resolves dot-dot elements, and re-joins.  These
functions are embedded structurally over the character list of a `String`
so that they both evaluate on concrete inputs and admit proofs on abstract
ones. -/

/-- Split a character list on the path separator, keeping empty pieces (the
behavior of splitting a path on each occurrence of the separator character);
`cur` holds the current piece's characters in reverse. -/
def splitSlashAux (cur : List Char) : List Char → List String
  | [] => [String.mk cur.reverse]
  | c :: cs =>
    if c = '/' then String.mk cur.reverse :: splitSlashAux [] cs
    else splitSlashAux (c :: cur) cs

/-- Split a character list on the path separator. -/
def splitSlash (cs : List Char) : List String := splitSlashAux [] cs

/-- Whether a path's character list denotes a rooted (absolute) path, i.e.
starts with the separator. -/
def isRooted : List Char → Bool
  | [] => false
  | c :: _ => c = '/'

/-- The element loop of Go's `filepath.Clean`: process path elements left to
right over a reversed output stack, skipping empty and `.` elements and
resolving `..` (pop a non-`..` stack entry; at the top of a rooted path
drop the `..`, of a relative path keep it). -/
def cleanStack (rooted : Bool) : List String → List String → List String
  | stack, [] => stack
  | stack, s :: rest =>
    if s = "" ∨ s = "." then cleanStack rooted stack rest
    else if s = ".." then
      match stack with
      | t :: ts =>
        if t = ".." then cleanStack rooted (s :: t :: ts) rest
        else cleanStack rooted ts rest
      | [] =>
        if rooted then cleanStack rooted [] rest
        else cleanStack rooted [s] rest
    else cleanStack rooted (s :: stack) rest

/-- Join path elements with single separators (character-level image of the
output buffer Go's `Clean` writes its surviving elements into). -/
def renderSegs : List String → List Char
  | [] => []
  | [s] => s.data
  | s :: rest => s.data ++ '/' :: renderSegs rest

/-- Go's `filepath.Clean` for Unix separators. -/
def goClean (p : String) : String :=
  let rooted := isRooted p.data
  let out := renderSegs (cleanStack rooted [] (splitSlash p.data)).reverse
  if rooted then String.mk ('/' :: out)
  else if out = [] then "." else String.mk out

/-- Go's two-argument `filepath.Join`: empty elements are ignored, the rest
are joined with the separator, and the result is `Clean`ed. -/
def goJoin (a b : String) : String :=
  if a = "" then if b = "" then "" else goClean b
  else if b = "" then goClean a
  else goClean (a ++ "/" ++ b)

/-- Relative path of an entry `segs` below the walked root, as the string
`filepath.Rel(localPath, path)` returns it (sshclient.go:96): `.` for the
root itself, otherwise the segments joined by the separator. -/
def relString (segs : List String) : String :=
  match segs with
  | [] => "."
  | _ :: _ => String.mk (renderSegs segs)

/-- The remote destination path `CopyDir` derives for the entry at relative
segments `segs`: `dstPath := filepath.Join(remotePath, relPath)`
(sshclient.go:100). -/
def dstPathStr (remoteRoot : String) (segs : List String) : String :=
  goJoin remoteRoot (relString segs)

/-- A plain path segment: non-empty, not a dot element, and free of the
separator character. -/
def validName (s : String) : Prop :=
  s ≠ "" ∧ s ≠ "." ∧ s ≠ ".." ∧ '/' ∉ s.data

instance (s : String) : Decidable (validName s) := by
  unfold validName; infer_instance

/-- Render a segment list as a rooted path string. -/
def renderAbs (segs : List String) : String :=
  String.mk ('/' :: renderSegs segs)

/-! ## The directory walk of `CopyDir`

`CopyDir` traverses the local tree with `filepath.Walk` (sshclient.go:90),
which visits a directory before its contents; for each entry the callback
issues `RunCommand("mkdir -p '<dst>'")` when the entry is a directory
(sshclient.go:102-107) and `CopyFile(path, dstPath)` when it is a file
(sshclient.go:108-119).  Paths are tracked as lists of name segments
relative to the walked root (`[]` is the root itself); sibling order in the
model is the directory-listing order (`filepath.Walk` uses the lexically
sorted listing — no claim depends on the order among siblings). -/

/-- A local file-system entry: a regular file with contents, or a directory
with a list of children. -/
inductive FsEntry
  | file (name : String) (content : String)
  | dir (name : String) (children : List FsEntry)

/-- One unit of work the walk callback performs for one entry: a remote
directory-create (`mkdir -p` over `RunCommand`) or a file copy
(`CopyFile`), at the given path relative to the roots. -/
inductive TransferTask
  | mkdir (path : List String)
  | copy (path : List String) (content : String)
deriving DecidableEq

/-- Path targeted by a task. -/
def taskPath : TransferTask → List String
  | TransferTask.mkdir p => p
  | TransferTask.copy p _ => p

mutual

/-- Tasks the walk performs for one entry located below the directory at
relative segments `pre`: the entry's own task first, then (for a directory)
the tasks of its children — exactly `filepath.Walk`'s parent-first order. -/
def walkEntry (pre : List String) : FsEntry → List TransferTask
  | FsEntry.file n c => [TransferTask.copy (pre ++ [n]) c]
  | FsEntry.dir n cs => TransferTask.mkdir (pre ++ [n]) :: walkChildren (pre ++ [n]) cs

/-- Tasks for a list of sibling entries, in listing order. -/
def walkChildren (pre : List String) : List FsEntry → List TransferTask
  | [] => []
  | e :: es => walkEntry pre e ++ walkChildren pre es

end

/-- The full task sequence of `CopyDir localPath remotePath` on a local root
directory with children `cs`: `filepath.Walk` visits the root itself first
(relative path `.`, so the first task is the directory-create of the remote
root, sshclient.go:102-107), then every entry below it, parent before
child. -/
def copyDirTasks (cs : List FsEntry) : List TransferTask :=
  TransferTask.mkdir [] :: walkChildren [] cs

/-! ## Remote state and task execution

The remote side is modelled by the set of directories that exist and the
contents of the remote files, keyed by segment paths relative to the remote
root.  `mkdir -p` creates the named directory together with all of its
ancestors and succeeds when the directory already exists; the remote file
create (`c.client.Create`, sshclient.go:74) truncates and overwrites an
existing file.

`filepath.Walk` aborts the traversal as soon as the callback returns a
non-nil error and `CopyDir` returns that error (sshclient.go:90-126), so
execution is a left fold that stops at the first failing task.  The
goroutine `CopyDir` spawns for a file copy is joined by `wg.Wait()` before
the callback proceeds (sshclient.go:110-116), so the fold is sequential. -/

/-- Remote state: which relative directory paths exist, and the contents of
remote files. -/
structure Remote where
  dirs : List String → Bool
  files : List String → Option String

/-- Remote state with no directories and no files. -/
def emptyRemote : Remote :=
  { dirs := fun _ => false, files := fun _ => none }

/-- Effect of one succeeded task on the remote state: `mkdir -p p` creates
`p` and every ancestor of `p` (all prefixes of the segment list, the remote
root `[]` included); a file copy overwrites the destination file's
contents. -/
def applyTask (r : Remote) : TransferTask → Remote
  | TransferTask.mkdir p =>
    { r with dirs := fun q => p.inits.contains q || r.dirs q }
  | TransferTask.copy p c =>
    { r with files := fun q => if q = p then some c else r.files q }

/-- Effect of a task sequence run to completion. -/
def applyAll (r : Remote) (ts : List TransferTask) : Remote := ts.foldl applyTask r

/-- Execution of the walk's task sequence, mirroring `filepath.Walk`'s
error contract: `fail` says whether a task's remote operation fails in the
given remote state; the first failing task aborts the traversal, its error
is returned, and the effects of the already-completed tasks remain (no
rollback). -/
def runW (fail : Remote → TransferTask → Option String) :
    Remote → List TransferTask → Remote × Option String
  | r, [] => (r, none)
  | r, t :: ts =>
    match fail r t with
    | some e => (r, some e)
    | none => runW fail (applyTask r t) ts

/-- Failure behavior of the remote operations themselves: `mkdir -p` never
fails on an existing directory; the remote file create fails exactly when
the parent directory is missing, and otherwise overwrites without
erroring. -/
def remoteFail (r : Remote) : TransferTask → Option String
  | TransferTask.mkdir _ => none
  | TransferTask.copy p _ =>
    if r.dirs p.dropLast then none else some "remote create failed"

/-- Running one full `CopyDir` task sequence against the remote. -/
def runCopyDir (r : Remote) (cs : List FsEntry) : Remote × Option String :=
  runW remoteFail r (copyDirTasks cs)

/-! ## Resource lifetimes of `RunCommand` and `CopyFile`

`RunCommand` (sshclient.go:50-63) acquires one session and registers
`defer session.Close()`; `CopyFile` (sshclient.go:66-85) opens the local
source with `defer src.Close()` and the remote destination with
`defer dst.Close()`.  Each function is embedded as the sequence of resource
events its control flow produces, one definition branch per exit path of the
Go function, with the deferred releases appended at each return in Go's
last-in-first-out `defer` order. -/

/-- Resource acquisition and release events. -/
inductive REv
  | acqSession
  | relSession
  | openSrc
  | closeSrc
  | openDst
  | closeDst
deriving DecidableEq

/-- Resource events of one `RunCommand` call (sshclient.go:50-63).  The
booleans select the exit path: `sessionErr` — `NewSession` failed (nothing
acquired, sshclient.go:52-54); `cmdErr` — `session.Output` returned an
error (sshclient.go:57-60).  On both the error return and the success
return the deferred `session.Close()` (sshclient.go:55) runs. -/
def runCommandEv (sessionErr cmdErr : Bool) : List REv :=
  if sessionErr then []
  else
    REv.acqSession :: ((if cmdErr then [] else []) ++ [REv.relSession])

/-- Resource events of one `CopyFile` call (sshclient.go:66-85).  The
booleans select the exit path: `srcErr` — `os.Open` failed (nothing opened,
sshclient.go:67-70); `dstErr` — the remote create failed (the deferred
`src.Close()` still runs, sshclient.go:73-76); `copyErr` — `io.Copy` failed
(sshclient.go:79-82).  On every return after both opens, the deferred
closes run in last-in-first-out order: destination first, then source. -/
def copyFileEv (srcErr dstErr copyErr : Bool) : List REv :=
  if srcErr then []
  else
    REv.openSrc ::
      (if dstErr then [REv.closeSrc]
       else
         REv.openDst ::
           ((if copyErr then [] else []) ++ [REv.closeDst, REv.closeSrc]))

/-! ## Dispatch structure of file copies inside `CopyDir`

For a file entry the walk callback creates a `sync.WaitGroup`, spawns one
goroutine running `CopyFile`, and immediately calls `wg.Wait()`
(sshclient.go:108-119): the copy of each file both begins and ends within
its own callback invocation, before the walk proceeds to the next entry.
The dispatch is embedded as a begin/end event trace over the task list. -/

/-- Copy lifecycle events: the goroutine for a file starts, or is joined. -/
inductive CEv
  | beginCopy (path : List String)
  | endCopy (path : List String)
deriving DecidableEq

/-- Events one task contributes: a file-copy task spawns its goroutine and
is immediately awaited (begin directly followed by end); directory tasks
run synchronously inside `RunCommand` and contribute no copy events. -/
def taskEv : TransferTask → List CEv
  | TransferTask.mkdir _ => []
  | TransferTask.copy p _ => [CEv.beginCopy p, CEv.endCopy p]

/-- The copy-dispatch trace of one `CopyDir` run over a root with children
`cs`. -/
def copyDirEv (cs : List FsEntry) : List CEv :=
  (copyDirTasks cs).flatMap taskEv

/-- A trace is strictly sequential when every begin event is immediately
followed by the matching end event: at no point are two copies in flight,
i.e. there is no concurrency among file transfers. -/
def seqTrace : List CEv → Bool
  | [] => true
  | CEv.beginCopy p :: CEv.endCopy q :: rest => p = q && seqTrace rest
  | _ => false

/-! ## Auxiliary definitions used by the analysis -/

/-- Content the remote file at `q` holds after a task sequence runs to
completion, when some task in the sequence writes `q` (the last such write
wins). -/
def writeOf : List TransferTask → List String → Option String
  | [], _ => none
  | t :: ts, q =>
    match writeOf ts q with
    | some c => some c
    | none =>
      match t with
      | TransferTask.copy p c => if q = p then some c else none
      | TransferTask.mkdir _ => none

/-- Whether a task sequence creates the remote directory `q` (via the
`mkdir -p` of `q` or of a path below `q`). -/
def mkOf : List TransferTask → List String → Bool
  | [], _ => false
  | TransferTask.mkdir p :: ts, q => p.inits.contains q || mkOf ts q
  | TransferTask.copy _ _ :: ts, q => mkOf ts q

/-- Per-task failure oracle used as a concrete instance of a failing sync
step: the copy of `a.txt` directly under the root fails with a bare
I/O error message. -/
def execFailA : TransferTask → Option String :=
  fun t => if taskPath t = ["a.txt"] then some "io failure" else none

/-- Per-task failure oracle failing at a different entry, `b.txt`, with the
same underlying error message. -/
def execFailB : TransferTask → Option String :=
  fun t => if taskPath t = ["b.txt"] then some "io failure" else none

/-- Per-task failure oracle failing at the copy of `a` with message
`boom`. -/
def execBoom : TransferTask → Option String :=
  fun t => if t = TransferTask.copy ["a"] "x" then some "boom" else none

/-- Small example tree: a directory `a` holding one file `f`. -/
def exampleTree : List FsEntry :=
  [FsEntry.dir "a" [FsEntry.file "f" "hi"]]

/-- Example tree with two files at the root. -/
def twoFileTree : List FsEntry :=
  [FsEntry.file "a.txt" "x", FsEntry.file "b.txt" "y"]

/-! ## General lemmas -/

/-- Extensionality for remote states. -/
theorem Remote.eqOf {r₁ r₂ : Remote}
    (hd : r₁.dirs = r₂.dirs) (hf : r₁.files = r₂.files) : r₁ = r₂ := by
  cases r₁; cases r₂; cases hd; cases hf; rfl

/-! ## Claim C10 — fixed five-second dial timeout -/

/-- C10: every call to `NewSSHClient` uses a dial timeout of exactly
5 seconds (5 000 000 000 nanoseconds, from `Timeout: 5 * time.Second` at
sshclient.go:31); the timeout is the same for all values of the four
parameters of the public constructor, so no parameter lets the caller pick
a different timeout. -/
theorem c10_fixed_dial_timeout :
    ∀ (host : String) (port : Nat) (user password : String),
      (newSSHClientConfig host port user password).timeoutNs =
        5 * 1000000000 :=
  fun _ _ _ _ => rfl

/-! ## Claim C8 — host-key policy and credentials are not configurable

`NewSSHClient` (sshclient.go:25-42) takes only `(host, port, user,
password)`.  The produced configuration always carries
`ssh.InsecureIgnoreHostKey()` (sshclient.go:32) and a single password auth
method (sshclient.go:28-30): no parameter selects a host-key policy or a
key credential, so insecure host-key acceptance is the only available mode
rather than an explicit opt-in, refuting the claim. -/

/-- C8 counterexample: a concrete call that opts into nothing — its inputs
carry no policy or credential choice — still yields a configuration with
`insecureIgnore` host-key handling and a password credential, so insecure
acceptance is not an explicit opt-in and no key/pinned/known-hosts option
is reachable. -/
theorem c8_counterexample :
    (newSSHClientConfig "example.com" 22 "root" "pw").hostKey =
        HostKeyPolicy.insecureIgnore ∧
      (newSSHClientConfig "example.com" 22 "root" "pw").auth =
        [AuthMethod.password "pw"] :=
  ⟨rfl, rfl⟩

/-- C8 (amended): `NewSSHClient` accepts only a password credential, and
the host-key policy is unconditionally `insecureIgnore` for every input —
the claimed configuration options `{credential: password|key, hostKeyPolicy:
insecureIgnore|pinned|knownHostsFile}` are not inputs of the constructor,
and insecure host-key acceptance is the only mode. -/
theorem c8_insecure_only_mode :
    ∀ (host : String) (port : Nat) (user password : String),
      (newSSHClientConfig host port user password).hostKey =
          HostKeyPolicy.insecureIgnore ∧
        (newSSHClientConfig host port user password).auth =
          [AuthMethod.password password] :=
  fun _ _ _ _ => ⟨rfl, rfl⟩

/-! ## Claim C6 — sessions and file handles are released on every path -/

/-- C6: on every exit path of `RunCommand` the acquired session is
released (sshclient.go:55: `defer session.Close()` covers both the
non-zero-exit/transport-error return at sshclient.go:58-60 and the success
return), and on every exit path of `CopyFile` each opened handle is closed
(sshclient.go:71 and sshclient.go:76: the deferred closes run on the
remote-create failure, the copy failure, and the success return): in every
trace, acquisitions and releases balance, so no session or handle outlives
its call. -/
theorem c6_resources_released :
    (∀ sessionErr cmdErr : Bool,
        (runCommandEv sessionErr cmdErr).count REv.acqSession =
          (runCommandEv sessionErr cmdErr).count REv.relSession)
    ∧ (∀ srcErr dstErr copyErr : Bool,
        (copyFileEv srcErr dstErr copyErr).count REv.openSrc =
            (copyFileEv srcErr dstErr copyErr).count REv.closeSrc
        ∧ (copyFileEv srcErr dstErr copyErr).count REv.openDst =
            (copyFileEv srcErr dstErr copyErr).count REv.closeDst) := by
  constructor
  · intro sessionErr cmdErr
    cases sessionErr <;> cases cmdErr <;> decide
  · intro srcErr dstErr copyErr
    cases srcErr <;> cases dstErr <;> cases copyErr <;> exact ⟨by decide, by decide⟩

/-! ## Claim C9 — file copies are strictly sequential -/

/-- Any trace assembled task by task from immediately-joined dispatches is
strictly sequential. -/
theorem seqTrace_flatMap (ts : List TransferTask) :
    seqTrace (ts.flatMap taskEv) = true := by
  induction ts with
  | nil => rfl
  | cons t ts ih =>
    cases t with
    | mkdir p => simpa [taskEv] using ih
    | copy p c =>
      rw [List.flatMap_cons]
      show seqTrace (CEv.beginCopy p :: CEv.endCopy p :: ts.flatMap taskEv) = true
      simp only [seqTrace]
      rw [ih]
      simp

/-- C9 counterexample: on a root holding the two files `a.txt` and `b.txt`,
the copy-dispatch trace of `CopyDir` begins the second copy only after the
first has been joined — the unique schedule the code admits
(sshclient.go:110-116: `wg.Add(1)`, one goroutine, then `wg.Wait()` before
the walk proceeds) is the strictly sequential one, and `CopyDir` has no
worker-pool-size input at all; the file transfers are never concurrent,
refuting the claim. -/
theorem c9_counterexample :
    copyDirEv twoFileTree =
        [CEv.beginCopy ["a.txt"], CEv.endCopy ["a.txt"],
         CEv.beginCopy ["b.txt"], CEv.endCopy ["b.txt"]]
      ∧ seqTrace (copyDirEv twoFileTree) = true :=
  ⟨rfl, rfl⟩

/-- C9 (amended): for every local tree, the file copies of `CopyDir` run
strictly sequentially — each per-file goroutine is awaited (`wg.Wait()`,
sshclient.go:116) before the traversal continues, so every begin event is
immediately followed by its own end event and at most one copy is ever in
flight; there is no worker pool and no concurrency configuration. -/
theorem c9_copies_sequential :
    ∀ cs : List FsEntry, seqTrace (copyDirEv cs) = true :=
  fun _ => seqTrace_flatMap _

/-! ## Claim C1 — quoting of the directory-create command -/

/-- Inside single quotes the scanner consumes quote-free content verbatim
into the current word. -/
theorem shellGo_inQuote (content : List Char) (h : squote ∉ content) :
    ∀ (toks : List String) (cur : List Char) (st : Bool) (rest : List Char),
      shellGo toks cur st true (content ++ rest) =
        shellGo toks (content.reverse ++ cur) st true rest := by
  induction content with
  | nil => intro toks cur st rest; simp
  | cons c cs ih =>
    intro toks cur st rest
    have hc : ¬(c = squote) := fun hcq => h (by simp [hcq])
    have hcs : squote ∉ cs := fun hm => h (List.mem_cons_of_mem c hm)
    simp only [List.cons_append, shellGo, if_pos rfl, if_neg hc, if_true]
    show shellGo toks (c :: cur) st true (cs ++ rest) =
      shellGo toks ((c :: cs).reverse ++ cur) st true rest
    rw [ih hcs toks (c :: cur) st rest]
    simp

/-- Repacking a string's character list yields the string itself. -/
theorem stringMkData (s : String) : String.mk s.data = s := rfl

/-- The scanner consumes the fixed head of the built command. -/
theorem shellGo_cmdStart (rest : List Char) :
    shellGo [] [] false false ("mkdir -p ".data ++ rest) =
      shellGo ["-p", "mkdir"] [] false false rest := rfl

/-- Character content of the command `CopyDir` builds. -/
theorem mkdirCmd_data (p : String) :
    (mkdirCmd p).data = "mkdir -p ".data ++ squote :: (p.data ++ [squote]) := by
  simp [mkdirCmd, squoteStr]

/-- Destination paths free of single quotes are passed through intact: the
built command parses to exactly `mkdir -p <path>`. -/
theorem shellParse_mkdirCmd (p : String) (h : squote ∉ p.data) :
    shellParse (mkdirCmd p) = some ["mkdir", "-p", p] := by
  unfold shellParse
  rw [mkdirCmd_data p, shellGo_cmdStart]
  rw [show shellGo ["-p", "mkdir"] [] false false (squote :: (p.data ++ [squote])) =
        shellGo ["-p", "mkdir"] [] true true (p.data ++ [squote]) from by
      simp [shellGo]]
  rw [shellGo_inQuote p.data h]
  simp [shellGo, stringMkData]

/-- C1: the claim requires the directory-create command to be free of shell
syntax errors for every directory name, in particular one containing an
apostrophe.  The code's `fmt.Sprintf("mkdir -p '%s'", dstPath)`
(sshclient.go:104) merely wraps the path in single quotes: the first
conjunct shows the command is well-formed exactly for quote-free paths
(spaces included), while the second shows that for the specification's own
scenario — a directory named `it's mine` under remote root `/tmp/dst` —
the emitted command is a shell syntax error (unterminated quote), so the
intended remote directory is not created.  The code contradicts the spec's
mandated quoting discipline: a code bug. -/
theorem c1_mkdir_quoting_breaks_on_apostrophe :
    (∀ p : String, squote ∉ p.data →
        shellParse (mkdirCmd p) = some ["mkdir", "-p", p])
    ∧ shellParse (mkdirCmd ("/tmp/dst/it" ++ squoteStr ++ "s mine")) = none :=
  ⟨fun p h => shellParse_mkdirCmd p h, rfl⟩

/-- C1 witness: the quote-free destination `/tmp/dst/a b` (with a space)
satisfies the first conjunct's hypothesis and yields a correctly parsed
command. -/
theorem c1_mkdir_quoting_witness :
    squote ∉ "/tmp/dst/a b".data ∧
      shellParse (mkdirCmd "/tmp/dst/a b") = some ["mkdir", "-p", "/tmp/dst/a b"] :=
  ⟨by decide, c1_mkdir_quoting_breaks_on_apostrophe.1 "/tmp/dst/a b" (by decide)⟩

/-! ## Claims C4 and C7 — first-error abort and error propagation -/

/-- Left fold of effects over a cons. -/
theorem applyAll_cons (r : Remote) (t : TransferTask) (ts : List TransferTask) :
    applyAll r (t :: ts) = applyAll (applyTask r t) ts := rfl

/-- Execution of the walk stops at the first failing task: the tasks before
it are applied, its error is returned, and nothing after it runs. -/
theorem runW_first_error (exec : TransferTask → Option String) (r : Remote)
    (l₁ : List TransferTask) (t : TransferTask) (l₂ : List TransferTask)
    (e : String) (h₁ : ∀ u ∈ l₁, exec u = none) (h₂ : exec t = some e) :
    runW (fun _ u => exec u) r (l₁ ++ t :: l₂) = (applyAll r l₁, some e) := by
  induction l₁ generalizing r with
  | nil =>
    simp only [List.nil_append, runW, h₂]
    rfl
  | cons u us ih =>
    have hu : exec u = none := h₁ u (by simp)
    have hus : ∀ v ∈ us, exec v = none := fun v hv => h₁ v (by simp [hv])
    simp only [List.cons_append, runW, hu, applyAll_cons]
    exact ih (applyTask r u) hus

/-- C4: when any step of the traversal fails — the failure oracle `exec`
covers an unreadable entry (the walk callback's incoming `err`,
sshclient.go:91-93), a failed directory-create (sshclient.go:104-106) and a
failed file copy (sshclient.go:116-118) alike — the walk stops at that
first error and `CopyDir` returns it (`filepath.Walk` aborts when the
callback returns non-nil, and `CopyDir` returns its error,
sshclient.go:90-125): the final state carries exactly the effects of the
entries completed before the failure (no rollback), and no later entry is
processed. -/
theorem c4_stops_at_first_error (exec : TransferTask → Option String)
    (r : Remote) (l₁ : List TransferTask) (t : TransferTask)
    (l₂ : List TransferTask) (e : String)
    (h₁ : ∀ u ∈ l₁, exec u = none) (h₂ : exec t = some e) :
    runW (fun _ u => exec u) r (l₁ ++ t :: l₂) = (applyAll r l₁, some e) :=
  runW_first_error exec r l₁ t l₂ e h₁ h₂

/-- C4 witness: a concrete run in which the root directory-create succeeds,
the copy of `a` fails with `boom`, and a further directory task is pending:
the run returns `boom` with only the root mkdir applied. -/
theorem c4_stops_witness :
    (∀ u ∈ [TransferTask.mkdir ([] : List String)], execBoom u = none)
    ∧ execBoom (TransferTask.copy ["a"] "x") = some "boom"
    ∧ runW (fun _ u => execBoom u) emptyRemote
        ([TransferTask.mkdir []] ++
          TransferTask.copy ["a"] "x" :: [TransferTask.mkdir ["b"]]) =
      (applyAll emptyRemote [TransferTask.mkdir []], some "boom") :=
  ⟨by decide, by decide,
    c4_stops_at_first_error execBoom emptyRemote _ _ _ _ (by decide) (by decide)⟩

/-- C7 counterexample: `CopyDir` returns the failing step's error verbatim
(`return err`, sshclient.go:105/117-118 — no wrapping with the entry's
paths).  Two syncs that fail at entries with different paths (`a.txt`
versus `b.txt`) return identical error values, so the returned error does
not identify the failing entry's local or remote path, refuting the
claim. -/
theorem c7_counterexample :
    (runW (fun _ u => execFailA u) emptyRemote
        (copyDirTasks [FsEntry.file "a.txt" "x"])).2 = some "io failure"
    ∧ (runW (fun _ u => execFailB u) emptyRemote
        (copyDirTasks [FsEntry.file "b.txt" "y"])).2 = some "io failure"
    ∧ (["a.txt"] : List String) ≠ ["b.txt"] :=
  ⟨rfl, rfl, by decide⟩

/-- C7 (amended): the error arising from the first failing
directory-create or file-copy step propagates to the caller of `CopyDir`
verbatim — it is exactly the underlying step's error value, with no
wrapping attached, so it identifies the failing entry's paths only if the
underlying error happens to mention them. -/
theorem c7_error_unwrapped (exec : TransferTask → Option String)
    (r : Remote) (l₁ : List TransferTask) (t : TransferTask)
    (l₂ : List TransferTask) (e : String)
    (h₁ : ∀ u ∈ l₁, exec u = none) (h₂ : exec t = some e) :
    (runW (fun _ u => exec u) r (l₁ ++ t :: l₂)).2 = some e := by
  rw [runW_first_error exec r l₁ t l₂ e h₁ h₂]

/-- C7 witness: in a run over a root with files `a.txt` and `b.txt` whose
copy of `a.txt` fails, the returned error is the bare underlying `io
failure` string. -/
theorem c7_error_unwrapped_witness :
    (∀ u ∈ [TransferTask.mkdir ([] : List String)], execFailA u = none)
    ∧ execFailA (TransferTask.copy ["a.txt"] "x") = some "io failure"
    ∧ (runW (fun _ u => execFailA u) emptyRemote
        ([TransferTask.mkdir []] ++
          TransferTask.copy ["a.txt"] "x" :: [TransferTask.copy ["b.txt"] "y"])).2 =
      some "io failure" :=
  ⟨by decide, by decide,
    c7_error_unwrapped execFailA emptyRemote _ _ _ _ (by decide) (by decide)⟩

/-! ## Claim C2 — parents are created before their contents -/

/-- Mutual prefixes are equal. -/
theorem prefixAntisymm {a b : List String} (h₁ : a <+: b) (h₂ : b <+: a) :
    a = b :=
  h₁.eq_of_length (Nat.le_antisymm h₁.length_le h₂.length_le)

mutual

/-- Every task produced below the directory at `pre` targets a strictly
longer path extending `pre`. -/
theorem walkEntry_extends (pre : List String) :
    ∀ (e : FsEntry), ∀ t ∈ walkEntry pre e,
      pre <+: taskPath t ∧ pre.length < (taskPath t).length
  | FsEntry.file n c => by
    intro t ht
    simp only [walkEntry, List.mem_singleton] at ht
    subst ht
    exact ⟨List.prefix_append pre [n], by simp [taskPath]⟩
  | FsEntry.dir n cs => by
    intro t ht
    simp only [walkEntry, List.mem_cons] at ht
    rcases ht with rfl | ht
    · exact ⟨List.prefix_append pre [n], by simp [taskPath]⟩
    · have h := walkChildren_extends (pre ++ [n]) cs t ht
      refine ⟨List.IsPrefix.trans (List.prefix_append pre [n]) h.1, ?_⟩
      have h2 := h.2
      simp only [List.length_append, List.length_singleton] at h2
      omega

/-- List version of `walkEntry_extends`. -/
theorem walkChildren_extends (pre : List String) :
    ∀ (cs : List FsEntry), ∀ t ∈ walkChildren pre cs,
      pre <+: taskPath t ∧ pre.length < (taskPath t).length
  | [] => by intro t ht; simp [walkChildren] at ht
  | e :: es => by
    intro t ht
    simp only [walkChildren, List.mem_append] at ht
    rcases ht with ht | ht
    · exact walkEntry_extends pre e t ht
    · exact walkChildren_extends pre es t ht

end

mutual

/-- Wherever a task sits in the tasks of the subtree below `pre`, the
directory-create of every strict ancestor of its path lying strictly below
`pre` appears among the earlier tasks of that subtree. -/
theorem walkEntry_ancestor (pre : List String) :
    ∀ (e : FsEntry) (l₁ : List TransferTask) (t : TransferTask)
      (l₂ : List TransferTask) (q : List String),
      walkEntry pre e = l₁ ++ t :: l₂ → pre <+: q → q ≠ pre →
      q <+: taskPath t → q ≠ taskPath t → TransferTask.mkdir q ∈ l₁
  | FsEntry.file n c => by
    intro l₁ t l₂ q heq hpq hqp hqt hqt'
    simp only [walkEntry] at heq
    cases l₁ with
    | nil =>
      simp only [List.nil_append] at heq
      have ht : t = TransferTask.copy (pre ++ [n]) c := (List.cons_eq_cons.1 heq.symm).1
      subst ht
      simp only [taskPath] at hqt hqt'
      rcases List.prefix_concat_iff.1 hqt with rfl | hq2
      · exact absurd rfl hqt'
      · exact absurd (prefixAntisymm hq2 hpq) hqp
    | cons u us =>
      have := (List.cons_eq_cons.1 heq.symm).2
      exact absurd this.symm (by simp)
  | FsEntry.dir n cs => by
    intro l₁ t l₂ q heq hpq hqp hqt hqt'
    simp only [walkEntry] at heq
    cases l₁ with
    | nil =>
      simp only [List.nil_append] at heq
      have ht : t = TransferTask.mkdir (pre ++ [n]) := (List.cons_eq_cons.1 heq.symm).1
      subst ht
      simp only [taskPath] at hqt hqt'
      rcases List.prefix_concat_iff.1 hqt with rfl | hq2
      · exact absurd rfl hqt'
      · exact absurd (prefixAntisymm hq2 hpq) hqp
    | cons u us =>
      have hu : u = TransferTask.mkdir (pre ++ [n]) :=
        ((List.cons_eq_cons.1 heq).1).symm
      have hrest : walkChildren (pre ++ [n]) cs = us ++ t :: l₂ :=
        (List.cons_eq_cons.1 heq).2
      subst hu
      by_cases hq : q = pre ++ [n]
      · subst hq
        exact List.mem_cons_self _ _
      · have hmem : t ∈ walkChildren (pre ++ [n]) cs := by
          rw [hrest]; simp
        have hext := walkChildren_extends (pre ++ [n]) cs t hmem
        rcases List.prefix_or_prefix_of_prefix hqt hext.1 with hcase | hcase
        · rcases List.prefix_concat_iff.1 hcase with rfl | hq2
          · exact absurd rfl hq
          · exact absurd (prefixAntisymm hq2 hpq) hqp
        · have := walkChildren_ancestor (pre ++ [n]) cs us t l₂ q hrest hcase
            hq hqt hqt'
          exact List.mem_cons_of_mem _ this

/-- List version of `walkEntry_ancestor`. -/
theorem walkChildren_ancestor (pre : List String) :
    ∀ (cs : List FsEntry) (l₁ : List TransferTask) (t : TransferTask)
      (l₂ : List TransferTask) (q : List String),
      walkChildren pre cs = l₁ ++ t :: l₂ → pre <+: q → q ≠ pre →
      q <+: taskPath t → q ≠ taskPath t → TransferTask.mkdir q ∈ l₁
  | [] => by
    intro l₁ t l₂ q heq
    cases l₁ <;> simp [walkChildren] at heq
  | e :: es => by
    intro l₁ t l₂ q heq hpq hqp hqt hqt'
    simp only [walkChildren] at heq
    rcases List.append_eq_append_iff.1 heq with ⟨a', hc, hb⟩ | ⟨c', ha, hd⟩
    · subst hc
      have := walkChildren_ancestor pre es a' t l₂ q hb hpq hqp hqt hqt'
      exact List.mem_append_right _ this
    · cases c' with
      | nil =>
        simp only [List.nil_append] at hd
        have := walkChildren_ancestor pre es [] t l₂ q hd.symm hpq hqp hqt hqt'
        simp at this
      | cons v vs =>
        have hv : t = v := (List.cons_eq_cons.1 hd).1
        subst hv
        exact walkEntry_ancestor pre e l₁ t vs q ha hpq hqp hqt hqt'

end

/-- C2: for every tree shape, the walk of `CopyDir` orders parents before
children — wherever a task for an entry appears in the task sequence, the
directory-create task of every strict ancestor of its path (the parent
directory of a file copy included) appears strictly earlier.  As the tasks
are executed sequentially in sequence order (`RunCommand` blocks until the
remote `mkdir -p` finishes, and per-file goroutines are joined
immediately), together with the first-error abort this means no file copy
begins before its parent directory's create has returned successfully. -/
theorem c2_parent_before_child (cs : List FsEntry) (l₁ : List TransferTask)
    (t : TransferTask) (l₂ : List TransferTask) (q : List String)
    (heq : copyDirTasks cs = l₁ ++ t :: l₂)
    (hq : q <+: taskPath t) (hq' : q ≠ taskPath t) :
    TransferTask.mkdir q ∈ l₁ := by
  simp only [copyDirTasks] at heq
  cases l₁ with
  | nil =>
    simp only [List.nil_append] at heq
    have ht : t = TransferTask.mkdir [] := (List.cons_eq_cons.1 heq.symm).1
    subst ht
    simp only [taskPath] at hq hq'
    exact absurd (List.prefix_nil.1 hq) hq'
  | cons u us =>
    have hu : u = TransferTask.mkdir [] := ((List.cons_eq_cons.1 heq).1).symm
    have hrest : walkChildren [] cs = us ++ t :: l₂ := (List.cons_eq_cons.1 heq).2
    subst hu
    by_cases hq0 : q = []
    · subst hq0; exact List.mem_cons_self _ _
    · have := walkChildren_ancestor [] cs us t l₂ q hrest (List.nil_prefix)
        hq0 hq hq'
      exact List.mem_cons_of_mem _ this

/-- C2 witness: in the tree `a/f`, the copy task of `a/f` is preceded by
the directory-create of `a` (and of the root). -/
theorem c2_parent_before_child_witness :
    copyDirTasks exampleTree =
        [TransferTask.mkdir [], TransferTask.mkdir ["a"]] ++
          TransferTask.copy ["a", "f"] "hi" :: []
      ∧ (["a"] : List String) <+: ["a", "f"]
      ∧ (["a"] : List String) ≠ ["a", "f"]
      ∧ TransferTask.mkdir ["a"] ∈
          [TransferTask.mkdir ([] : List String), TransferTask.mkdir ["a"]] :=
  ⟨rfl, by decide, by decide,
    c2_parent_before_child exampleTree _ _ _ ["a"] rfl (by decide) (by decide)⟩

/-! ## Claim C5 — idempotence of the sync -/

/-- A run that reports no error applied every task. -/
theorem runW_ok (f : Remote → TransferTask → Option String)
    (ts : List TransferTask) :
    ∀ (r r' : Remote), runW f r ts = (r', none) → r' = applyAll r ts := by
  induction ts with
  | nil =>
    intro r r' h
    injection h with h1 h2
    exact h1.symm
  | cons t ts ih =>
    intro r r' h
    simp only [runW] at h
    cases hf : f r t with
    | some e =>
      simp only [hf] at h
      exact absurd h (by simp)
    | none =>
      simp only [hf] at h
      rw [applyAll_cons]
      exact ih (applyTask r t) r' h

/-- A task never deletes a remote directory. -/
theorem applyTask_dirs_le (r : Remote) (t : TransferTask) (q : List String)
    (h : r.dirs q = true) : (applyTask r t).dirs q = true := by
  cases t with
  | mkdir p => simp [applyTask, h]
  | copy p c => simpa [applyTask] using h

/-- A task sequence never deletes a remote directory. -/
theorem applyAll_dirs_le (ts : List TransferTask) :
    ∀ (r : Remote) (q : List String),
      r.dirs q = true → (applyAll r ts).dirs q = true := by
  induction ts with
  | nil => intro r q h; exact h
  | cons t ts ih =>
    intro r q h
    rw [applyAll_cons]
    exact ih _ q (applyTask_dirs_le r t q h)

/-- A task sequence that ran without error from `r` also runs without error
from any state whose directory set dominates that of `r`, applying every
task: `mkdir -p` never fails, and every copy finds its parent directory
because the smaller state already provided it. -/
theorem runW_ok_mono (ts : List TransferTask) :
    ∀ (r s r' : Remote), runW remoteFail r ts = (r', none) →
      (∀ q, r.dirs q = true → s.dirs q = true) →
      runW remoteFail s ts = (applyAll s ts, none) := by
  induction ts with
  | nil => intro r s r' h hle; rfl
  | cons t ts ih =>
    intro r s r' h hle
    have hfr : remoteFail r t = none := by
      cases hf : remoteFail r t with
      | none => rfl
      | some e =>
        simp only [runW, hf] at h
        exact absurd h (by simp)
    have hfs : remoteFail s t = none := by
      cases t with
      | mkdir p => rfl
      | copy p c =>
        simp only [remoteFail] at hfr ⊢
        by_cases hd : r.dirs p.dropLast = true
        · rw [if_pos (hle _ hd)]
        · rw [if_neg hd] at hfr
          exact absurd hfr (by simp)
    simp only [runW, hfr] at h
    simp only [runW, hfs]
    rw [applyAll_cons]
    refine ih (applyTask r t) (applyTask s t) r' h ?_
    intro q hq
    cases t with
    | mkdir p =>
      simp only [applyTask] at hq ⊢
      rcases Bool.or_eq_true_iff.1 hq with h1 | h1
      · rw [h1]; rfl
      · rw [hle q h1, Bool.or_true]
    | copy p c =>
      simp only [applyTask] at hq ⊢
      exact hle q hq

/-- Remote file contents after a completed task sequence: the sequence's
last write to the path wins, and paths the sequence never writes keep their
prior contents. -/
theorem applyAll_files (ts : List TransferTask) :
    ∀ (r : Remote) (q : List String),
      (applyAll r ts).files q =
        match writeOf ts q with
        | some c => some c
        | none => r.files q := by
  induction ts with
  | nil => intro r q; rfl
  | cons t ts ih =>
    intro r q
    rw [applyAll_cons, ih]
    simp only [writeOf]
    cases hw : writeOf ts q with
    | some c => rfl
    | none =>
      cases t with
      | mkdir p => rfl
      | copy p c =>
        simp only [applyTask]
        by_cases hqp : q = p
        · simp [hqp]
        · simp [hqp]

/-- Remote directory set after a completed task sequence: a directory
exists afterwards iff some `mkdir -p` of the sequence covers it or it
already existed. -/
theorem applyAll_dirs (ts : List TransferTask) :
    ∀ (r : Remote) (q : List String),
      (applyAll r ts).dirs q = (mkOf ts q || r.dirs q) := by
  induction ts with
  | nil => intro r q; simp [applyAll, mkOf]
  | cons t ts ih =>
    intro r q
    rw [applyAll_cons, ih]
    cases t with
    | mkdir p =>
      simp only [applyTask, mkOf]
      cases p.inits.contains q <;> simp
    | copy p c => rfl

/-- Applying the same completed task sequence a second time does not change
the remote state: `mkdir -p` on existing directories and overwriting copies
with the same contents are no-ops. -/
theorem applyAll_idem (ts : List TransferTask) (r : Remote) :
    applyAll (applyAll r ts) ts = applyAll r ts := by
  apply Remote.eqOf
  · funext q
    rw [applyAll_dirs, applyAll_dirs]
    cases mkOf ts q <;> simp
  · funext q
    rw [applyAll_files, applyAll_files]
    cases hw : writeOf ts q <;> simp

/-- C5: sync is idempotent.  If `CopyDir` over local tree `cs` succeeded
from remote state `r`, producing `r'`, then running it again succeeds as
well — directory creates are `mkdir -p` and so tolerate existing
directories, and the remote create truncates and overwrites existing files
rather than erroring — and the remote tree it leaves (directory set and
file contents) is exactly the `r'` the single run produced. -/
theorem c5_sync_idempotent (cs : List FsEntry) (r r' : Remote)
    (h : runCopyDir r cs = (r', none)) : runCopyDir r' cs = (r', none) := by
  have hts : r' = applyAll r (copyDirTasks cs) :=
    runW_ok remoteFail (copyDirTasks cs) r r' h
  have hmono : ∀ q, r.dirs q = true → r'.dirs q = true := by
    intro q hq
    rw [hts]
    exact applyAll_dirs_le _ r q hq
  have h2 := runW_ok_mono (copyDirTasks cs) r r' r' h hmono
  unfold runCopyDir
  rw [h2]
  have : applyAll r' (copyDirTasks cs) = r' := by
    rw [hts]
    exact applyAll_idem _ r
  rw [this]

/-- C5 witness: a concrete successful sync of the tree `a/f` from the empty
remote, run twice — the second run returns the same state and no error. -/
theorem c5_sync_idempotent_witness :
    runCopyDir emptyRemote exampleTree =
        (applyAll emptyRemote (copyDirTasks exampleTree), none)
      ∧ runCopyDir (applyAll emptyRemote (copyDirTasks exampleTree)) exampleTree =
        (applyAll emptyRemote (copyDirTasks exampleTree), none) :=
  ⟨rfl, c5_sync_idempotent exampleTree emptyRemote _ rfl⟩

/-! ## Claim C3 — remote destination path mapping -/

/-- Splitting consumes a separator-free word into the current piece. -/
theorem splitSlashAux_noSlash (w : List Char) (h : '/' ∉ w) :
    ∀ (cur rest : List Char),
      splitSlashAux cur (w ++ rest) = splitSlashAux (w.reverse ++ cur) rest := by
  induction w with
  | nil => intro cur rest; simp
  | cons c cs ih =>
    intro cur rest
    have hc : ¬(c = '/') := fun hcq => h (by simp [hcq])
    have hcs : '/' ∉ cs := fun hm => h (List.mem_cons_of_mem c hm)
    simp only [List.cons_append, splitSlashAux, if_neg hc]
    show splitSlashAux (c :: cur) (cs ++ rest) =
      splitSlashAux ((c :: cs).reverse ++ cur) rest
    rw [ih hcs (c :: cur) rest]
    simp

/-- Splitting at a separator closes the current piece. -/
theorem splitSlashAux_slash (cur rest : List Char) :
    splitSlashAux cur ('/' :: rest) =
      String.mk cur.reverse :: splitSlashAux [] rest := by
  simp [splitSlashAux]

/-- Rendering valid segments and splitting again is the identity. -/
theorem splitSlash_renderSegs :
    ∀ (segs : List String), segs ≠ [] → (∀ s ∈ segs, validName s) →
      splitSlashAux [] (renderSegs segs) = segs
  | [], h, _ => absurd rfl h
  | [s], _, hv => by
    have hns : '/' ∉ s.data := (hv s (by simp)).2.2.2
    have : renderSegs [s] = s.data ++ [] := by simp [renderSegs]
    rw [this, splitSlashAux_noSlash s.data hns [] []]
    simp [splitSlashAux, stringMkData]
  | s :: t :: rest, _, hv => by
    have hns : '/' ∉ s.data := (hv s (by simp)).2.2.2
    have hrec := splitSlash_renderSegs (t :: rest) (by simp)
      (fun u hu => hv u (List.mem_cons_of_mem s hu))
    show splitSlashAux [] (s.data ++ '/' :: renderSegs (t :: rest)) = s :: t :: rest
    rw [splitSlashAux_noSlash s.data hns [] ('/' :: renderSegs (t :: rest))]
    rw [splitSlashAux_slash]
    simp [stringMkData, hrec]

/-- Rendering distributes over concatenation of non-empty segment lists. -/
theorem renderSegs_append :
    ∀ (a b : List String), a ≠ [] → b ≠ [] →
      renderSegs (a ++ b) = renderSegs a ++ '/' :: renderSegs b
  | [], _, ha, _ => absurd rfl ha
  | [x], b, _, hb => by
    obtain ⟨y, ys, rfl⟩ := List.exists_cons_of_ne_nil hb
    simp [renderSegs]
  | x :: x' :: a, b, _, hb => by
    have ih := renderSegs_append (x' :: a) b (by simp) hb
    show x.data ++ '/' :: renderSegs ((x' :: a) ++ b) =
      (x.data ++ '/' :: renderSegs (x' :: a)) ++ '/' :: renderSegs b
    rw [ih]
    simp

/-- The clean loop passes a list of valid path elements through untouched
(onto the stack, hence reversed). -/
theorem cleanStack_valid :
    ∀ (l : List String) (rooted : Bool) (stack : List String),
      (∀ s ∈ l, validName s) →
      cleanStack rooted stack l = l.reverse ++ stack := by
  intro l
  induction l with
  | nil => intro rooted stack _; simp [cleanStack]
  | cons s rest ih =>
    intro rooted stack hv
    have hs := hv s (by simp)
    have h1 : ¬(s = "" ∨ s = ".") := by
      rintro (h | h)
      · exact hs.1 h
      · exact hs.2.1 h
    have h2 : ¬(s = "..") := hs.2.2.1
    simp only [cleanStack, if_neg h1, if_neg h2]
    rw [ih rooted (s :: stack) (fun u hu => hv u (List.mem_cons_of_mem s hu))]
    simp

/-- Rendering a head segment with non-empty name yields a non-empty
character list. -/
theorem renderSegs_ne_nil (s : String) (rest : List String)
    (h : s.data ≠ []) : renderSegs (s :: rest) ≠ [] := by
  cases rest with
  | nil => simpa [renderSegs] using h
  | cons t ts =>
    simp only [renderSegs]
    intro hcon
    exact h (List.append_eq_nil.1 hcon).1

/-- C3: the derived remote destination path is exactly the remote root
followed by the entry's path relative to the local root.  First conjunct:
for every remote root `/r1/…/rm` and every entry at relative segments
`s1/…/sn` (plain names: non-empty, no separator, not dot elements), the
path `CopyDir` derives (sshclient.go:95-100) is exactly
`/r1/…/rm/s1/…/sn` — single separators throughout, no empty segment (no
double slash) and no missing separator, nothing dropped or reordered by
`Clean`.  Second conjunct: the specification's concrete scenario — entry
`a/b/c.txt` under remote root `/tmp/dst` maps to exactly
`/tmp/dst/a/b/c.txt`. -/
theorem c3_path_mapping :
    (∀ (rsegs segs : List String), rsegs ≠ [] → segs ≠ [] →
        (∀ s ∈ rsegs ++ segs, validName s) →
        dstPathStr (renderAbs rsegs) segs = renderAbs (rsegs ++ segs))
    ∧ dstPathStr "/tmp/dst" ["a", "b", "c.txt"] = "/tmp/dst/a/b/c.txt" := by
  constructor
  · intro rsegs segs hr hs hv
    obtain ⟨s0, srest, rfl⟩ := List.exists_cons_of_ne_nil hs
    have hs0 : validName s0 := hv s0 (by simp)
    have hs0d : s0.data ≠ [] := by
      intro hcon
      exact hs0.1 (by cases s0; cases hcon; rfl)
    have hrel : renderSegs (s0 :: srest) ≠ [] := renderSegs_ne_nil s0 srest hs0d
    have hra : renderAbs rsegs ≠ "" := by
      intro hcon
      have := congrArg String.data hcon
      simp [renderAbs] at this
    have hrelne : String.mk (renderSegs (s0 :: srest)) ≠ "" := by
      intro hcon
      have := congrArg String.data hcon
      simp at this
      exact hrel this
    show goJoin (renderAbs rsegs) (String.mk (renderSegs (s0 :: srest))) =
      renderAbs (rsegs ++ s0 :: srest)
    rw [goJoin, if_neg hra, if_neg hrelne]
    have hdata :
        (renderAbs rsegs ++ "/" ++ String.mk (renderSegs (s0 :: srest))).data =
          '/' :: renderSegs (rsegs ++ s0 :: srest) := by
      simp only [String.data_append]
      show ('/' :: renderSegs rsegs) ++ "/".data ++ renderSegs (s0 :: srest) = _
      rw [renderSegs_append rsegs (s0 :: srest) hr (by simp)]
      simp
    rw [goClean, hdata]
    have hroot : isRooted ('/' :: renderSegs (rsegs ++ s0 :: srest)) = true := by
      simp [isRooted]
    rw [hroot]
    have hsplit : splitSlash ('/' :: renderSegs (rsegs ++ s0 :: srest)) =
        String.mk [] :: (rsegs ++ s0 :: srest) := by
      rw [splitSlash, splitSlashAux_slash]
      rw [splitSlash_renderSegs (rsegs ++ s0 :: srest) (by simp) hv]
      rfl
    rw [hsplit]
    have hclean : cleanStack true [] (String.mk [] :: (rsegs ++ s0 :: srest)) =
        (rsegs ++ s0 :: srest).reverse := by
      have hmk : (String.mk [] : String) = "" := rfl
      rw [cleanStack, if_pos (Or.inl hmk)]
      rw [cleanStack_valid (rsegs ++ s0 :: srest) true [] hv]
      simp
    rw [hclean]
    simp [renderAbs]
  · rfl

/-- C3 witness: remote root `/tmp/dst` and entry `a/b/c.txt` satisfy the
hypotheses, and the derived destination is `/tmp/dst/a/b/c.txt`. -/
theorem c3_path_mapping_witness :
    (∀ s ∈ (["tmp", "dst"] ++ ["a", "b", "c.txt"] : List String), validName s)
    ∧ dstPathStr (renderAbs ["tmp", "dst"]) ["a", "b", "c.txt"] =
        renderAbs (["tmp", "dst"] ++ ["a", "b", "c.txt"]) :=
  ⟨by decide,
    c3_path_mapping.1 ["tmp", "dst"] ["a", "b", "c.txt"]
      (by decide) (by decide) (by decide)⟩
